import Mathlib

/-!
Shallow embedding of `src/script/warsector.js`, a minimal wireframe 3D
renderer: a movable first-person camera (position + yaw), a world→camera
transform, a perspective projection onto the canvas, and edge drawing.

JavaScript numbers are modelled by real numbers (exact arithmetic); the
JavaScript remainder operator `%` (truncated toward zero) is modelled
explicitly.  A value that JavaScript leaves `undefined` (out-of-range array
indexing) is modelled by `Option`; a thrown `TypeError` (property access on
`undefined`) is modelled by `Except.error`.
-/

namespace Warsector

/-- Truncation of a real number toward zero, the rounding JavaScript's `%`
operator applies to the quotient. -/
noncomputable def jsTrunc (x : ℝ) : ℤ :=
  if 0 ≤ x then ⌊x⌋ else ⌈x⌉

/-- JavaScript's remainder operator `a % n`: the remainder of truncated
division, carrying the sign of the dividend. -/
noncomputable def jsRem (a n : ℝ) : ℝ :=
  a - n * jsTrunc (a / n)

/-- The `mod` utility (warsector.js line 38): `(a % n + n) % n`, the floored-modulo
utility used to normalize the yaw. -/
noncomputable def mod (a n : ℝ) : ℝ :=
  jsRem (jsRem a n + n) n

/-- A 3D point `{x, y, z}` (warsector.js line 95), in world space or,
transiently, in camera space. -/
@[ext]
structure Point where
  x : ℝ
  y : ℝ
  z : ℝ

/-- A screen-space projection result `{x, y}` (warsector.js line 111). -/
@[ext]
structure Projection where
  x : ℝ
  y : ℝ

/-- The camera: world-space position `(x, y, z)` and heading `yaw`
(warsector.js line 44). -/
@[ext]
structure Camera where
  x : ℝ
  y : ℝ
  z : ℝ
  yaw : ℝ

/-- The constant `Camera.speed` (warsector.js line 306): linear speed in world units per
second. -/
def Camera.speed : ℝ := 1000

/-- The constant `Camera.angularSpeed` (warsector.js line 304): angular speed in radians
per second. -/
noncomputable def Camera.angularSpeed : ℝ := Real.pi / 3

/-- The method `Camera.prototype.move` (warsector.js lines 52-61): displace the camera
along its current heading; the displacement is negated for `"backwards"`.
Only `x` and `y` change. -/
noncomputable def Camera.move (c : Camera) (seconds : ℝ) (direction : String) : Camera :=
  let distance := seconds * Camera.speed
  let distance := if direction = "backwards" then distance * (-1) else distance
  { c with
    x := c.x + distance * Real.cos c.yaw
    y := c.y + distance * Real.sin c.yaw }

/-- The method `Camera.prototype.turn` (warsector.js lines 63-72): change the yaw by
`seconds * angularSpeed` (negated for `"right"`), normalized into `[0, 2π)`
by `mod`. -/
noncomputable def Camera.turn (c : Camera) (seconds : ℝ) (direction : String) : Camera :=
  let angle := seconds * Camera.angularSpeed
  let angle := if direction = "right" then angle * (-1) else angle
  { c with yaw := mod (c.yaw + angle) (2 * Real.pi) }

/-- The camera transform built by `Camera.prototype.updateTransform`
(warsector.js lines 74-90): translate a world point by subtracting the
camera position, then rotate by `-yaw` about the z (up) axis; `z` passes
through unchanged. -/
noncomputable def Camera.transform (c : Camera) (point : Point) : Point :=
  let cos := Real.cos (-c.yaw)
  let sin := Real.sin (-c.yaw)
  let dx := point.x - c.x
  let dy := point.y - c.y
  let dz := point.z - c.z
  { x := dx * cos - dy * sin
    y := dy * cos + dx * sin
    z := dz }

/-- The method `Point.prototype.project` (warsector.js lines 101-118): transform the
point into camera space; when the camera-space `x` (the depth) is positive,
scale the lateral coordinates by `focalLength / depth` and anchor them at
the screen origin `(width/2, height*2/3)`; otherwise the projection is
`null`, modelled as `none`.  `focalLength`, `width` and `height` are the
ambient `Camera.focalLength`, `canvas.width` and `canvas.height`. -/
noncomputable def Point.project (camera : Camera) (focalLength width height : ℝ)
    (p : Point) : Option Projection :=
  let transformed := camera.transform p
  if 0 < transformed.x then
    let zScale := focalLength / transformed.x
    let dx := transformed.y * zScale
    let dy := transformed.z * zScale
    some { x := width / 2 - dx, y := height * 2 / 3 - dy }
  else
    none

/-- An `Edge` (warsector.js line 123): an ordered pair of vertex references.
`Shape` fills the fields by JavaScript array indexing, which yields
`undefined` for an out-of-range index, so each endpoint is an
`Option Point`. -/
structure Edge where
  from_ : Option Point
  to_ : Option Point

/-- The method `Edge.prototype.draw` (warsector.js lines 128-135), as a function of the
current frame's state: `this.from.projection && this.to.projection` reads
`projection` on `from` first, short-circuits when it is `null`, and only
then reads `projection` on `to`.  Reading a property of an `undefined`
endpoint throws a `TypeError`, modelled by `Except.error ()`.  Otherwise the
result reports the segment drawn (`some` of the two screen points) or the
silent skip (`none`). -/
noncomputable def Edge.draw (camera : Camera) (focalLength width height : ℝ)
    (e : Edge) : Except Unit (Option (Projection × Projection)) :=
  match e.from_ with
  | none => Except.error ()
  | some pf =>
    match Point.project camera focalLength width height pf with
    | none => Except.ok none
    | some a =>
      match e.to_ with
      | none => Except.error ()
      | some pt =>
        match Point.project camera focalLength width height pt with
        | none => Except.ok none
        | some b => Except.ok (some (a, b))

/-- A `Shape` (warsector.js line 140): a list of vertices and a list of
edges referencing them. -/
structure Shape where
  vertices : List Point
  edges : List Edge

/-- The `Shape` constructor (warsector.js lines 140-159): build a `Point`
from each coordinate triple, then, for each entry `(e0, e1)` of `edges` and
each index `i` in `e1`, push `Edge(vertices[e0], vertices[i])`.  JavaScript
array indexing out of range yields `undefined` (here `none`) rather than
failing. -/
def Shape.make (vertices : List (ℝ × ℝ × ℝ)) (edges : List (ℕ × List ℕ)) : Shape :=
  let vs := vertices.map (fun v => Point.mk v.1 v.2.1 v.2.2)
  let es := edges.flatMap (fun e => e.2.map (fun i => Edge.mk vs[e.1]? vs[i]?))
  { vertices := vs, edges := es }

/-- The inverse of the camera transform, as the spec's round-trip property
describes it: rotate by `+yaw` about the z (up) axis, then translate by
adding the camera position; the z coordinate passes through unchanged. -/
noncomputable def Camera.untransform (c : Camera) (point : Point) : Point :=
  let cos := Real.cos c.yaw
  let sin := Real.sin c.yaw
  { x := point.x * cos - point.y * sin + c.x
    y := point.y * cos + point.x * sin + c.y
    z := point.z + c.z }

/-!
Helper lemmas about `mod`: on a positive modulus, the JavaScript idiom
`(a % n + n) % n` computes the floored modulo `n * Int.fract (a / n)`.
-/

lemma jsTrunc_of_nonneg (x : ℝ) (h : 0 ≤ x) : jsTrunc x = ⌊x⌋ := if_pos h

lemma jsRem_eq (a n : ℝ) (hn : n ≠ 0) : jsRem a n = n * (a / n - jsTrunc (a / n)) := by
  rw [jsRem]
  field_simp

lemma mod_eq_fract (a n : ℝ) (hn : 0 < n) : mod a n = n * Int.fract (a / n) := by
  have hn' : n ≠ 0 := ne_of_gt hn
  have hrem : jsRem a n = n * (a / n - jsTrunc (a / n)) := jsRem_eq a n hn'
  have harg : jsRem a n + n = n * (a / n - jsTrunc (a / n) + 1) := by
    rw [hrem]; ring
  have hdivn : (jsRem a n + n) / n = a / n - jsTrunc (a / n) + 1 := by
    rw [harg, mul_div_cancel_left₀ _ hn']
  have hpos : 0 ≤ (jsRem a n + n) / n := by
    rw [hdivn]
    rcases le_or_lt 0 (a / n) with h | h
    · have hle : ((jsTrunc (a / n) : ℤ) : ℝ) ≤ a / n := by
        rw [jsTrunc_of_nonneg _ h]
        exact Int.floor_le _
      linarith
    · have hlt : ((jsTrunc (a / n) : ℤ) : ℝ) < a / n + 1 := by
        rw [jsTrunc, if_neg (not_le.mpr h)]
        exact Int.ceil_lt_add_one _
      linarith
  have hshift : a / n - jsTrunc (a / n) + 1 = a / n + ((1 - jsTrunc (a / n) : ℤ) : ℝ) := by
    push_cast
    ring
  have hfloor : ⌊(jsRem a n + n) / n⌋ = ⌊a / n⌋ + (1 - jsTrunc (a / n)) := by
    rw [hdivn, hshift, Int.floor_add_int]
  rw [mod, jsRem, jsTrunc_of_nonneg _ hpos, hfloor, harg, Int.fract]
  push_cast
  ring

lemma mod_nonneg (a n : ℝ) (hn : 0 < n) : 0 ≤ mod a n := by
  rw [mod_eq_fract a n hn]
  exact mul_nonneg (le_of_lt hn) (Int.fract_nonneg _)

lemma mod_lt (a n : ℝ) (hn : 0 < n) : mod a n < n := by
  rw [mod_eq_fract a n hn]
  calc n * Int.fract (a / n) < n * 1 := (mul_lt_mul_left hn).mpr (Int.fract_lt_one _)
  _ = n := mul_one n

lemma mod_eq_sub_floor (a n : ℝ) (hn : 0 < n) : mod a n = a - n * ⌊a / n⌋ := by
  have hn' : n ≠ 0 := ne_of_gt hn
  rw [mod_eq_fract a n hn, Int.fract]
  field_simp

lemma mod_eq_self (a n : ℝ) (hn : 0 < n) (h0 : 0 ≤ a) (h1 : a < n) : mod a n = a := by
  have hn' : n ≠ 0 := ne_of_gt hn
  have hfr : Int.fract (a / n) = a / n :=
    Int.fract_eq_self.mpr ⟨div_nonneg h0 (le_of_lt hn), (div_lt_one hn).mpr h1⟩
  rw [mod_eq_fract a n hn, hfr]
  field_simp

lemma mod_sub_int_mul (a n : ℝ) (k : ℤ) (hn : 0 < n) : mod (a - n * k) n = mod a n := by
  have hn' : n ≠ 0 := ne_of_gt hn
  rw [mod_eq_fract _ _ hn, mod_eq_fract _ _ hn]
  have hdiv : (a - n * k) / n = a / n - k := by
    field_simp
  rw [hdiv, Int.fract_sub_int]

/-- C1: the projection yields no result exactly when the camera-space depth
(the transformed `x` coordinate, the forward axis) is at most zero, and
yields a result exactly when the depth is strictly positive. -/
theorem project_none_iff_depth_nonpos (c : Camera) (f w h : ℝ) (p : Point) :
    (Point.project c f w h p = none ↔ (c.transform p).x ≤ 0) ∧
    ((Point.project c f w h p).isSome ↔ 0 < (c.transform p).x) := by
  by_cases hx : 0 < (c.transform p).x
  · constructor
    · simp [Point.project, hx, not_le.mpr hx]
    · simp [Point.project, hx]
  · constructor
    · simp [Point.project, hx, not_lt.mp hx]
    · simp [Point.project, hx]

/-- C9: `move` changes only the two position coordinates orthogonal to the
up axis; the up coordinate `z` and the `yaw` are unchanged, for every
duration and direction. -/
theorem move_preserves_z_yaw (c : Camera) (t : ℝ) (d : String) :
    (c.move t d).z = c.z ∧ (c.move t d).yaw = c.yaw :=
  ⟨rfl, rfl⟩

/-- C10: applying the camera transform to a world point equal to the
camera's own position yields the camera-space origin. -/
theorem transform_self_eq_origin (c : Camera) :
    c.transform (Point.mk c.x c.y c.z) = Point.mk 0 0 0 := by
  ext <;> simp [Camera.transform]

/-- C4: starting from a yaw in `[0, 2π)`, turning for any non-negative
elapsed time in either direction leaves the yaw in `[0, 2π)`, so membership
in `[0, 2π)` is an invariant of `turn`. -/
theorem turn_yaw_mem_Ico (c : Camera) (t : ℝ) (d : String)
    (h0 : 0 ≤ c.yaw) (h1 : c.yaw < 2 * Real.pi) (ht : 0 ≤ t) :
    0 ≤ (c.turn t d).yaw ∧ (c.turn t d).yaw < 2 * Real.pi := by
  simp only [Camera.turn]
  exact ⟨mod_nonneg _ _ Real.two_pi_pos, mod_lt _ _ Real.two_pi_pos⟩

/-- Witness for C4: the initial camera pose, turned left for one second. -/
theorem turn_yaw_mem_Ico_witness :
    0 ≤ (Camera.mk 0 0 200 0).yaw ∧ (Camera.mk 0 0 200 0).yaw < 2 * Real.pi ∧
      (0:ℝ) ≤ 1 ∧
      (0 ≤ ((Camera.mk 0 0 200 0).turn 1 "left").yaw ∧
        ((Camera.mk 0 0 200 0).turn 1 "left").yaw < 2 * Real.pi) :=
  ⟨le_refl 0, Real.two_pi_pos, zero_le_one,
    turn_yaw_mem_Ico (Camera.mk 0 0 200 0) 1 "left" (le_refl 0) Real.two_pi_pos zero_le_one⟩

/-- C5: for a yaw in `[0, 2π)`, the camera transform (translate by the
camera position, then rotate by `-yaw` about the up axis) followed by the
inverse rotation and translation recovers the original world point, over
exact arithmetic. -/
theorem transform_untransform_roundtrip (c : Camera) (p : Point)
    (h0 : 0 ≤ c.yaw) (h1 : c.yaw < 2 * Real.pi) :
    c.untransform (c.transform p) = p := by
  have hpyth := Real.sin_sq_add_cos_sq c.yaw
  ext
  · simp only [Camera.transform, Camera.untransform, Real.cos_neg, Real.sin_neg]
    linear_combination (p.x - c.x) * hpyth
  · simp only [Camera.transform, Camera.untransform, Real.cos_neg, Real.sin_neg]
    linear_combination (p.y - c.y) * hpyth
  · simp only [Camera.transform, Camera.untransform]
    ring

/-- Witness for C5: a concrete camera pose and world point. -/
theorem transform_untransform_roundtrip_witness :
    0 ≤ (Camera.mk 5 6 7 0).yaw ∧ (Camera.mk 5 6 7 0).yaw < 2 * Real.pi ∧
      (Camera.mk 5 6 7 0).untransform
        ((Camera.mk 5 6 7 0).transform (Point.mk 1 2 3)) = Point.mk 1 2 3 :=
  ⟨le_refl 0, Real.two_pi_pos,
    transform_untransform_roundtrip (Camera.mk 5 6 7 0) (Point.mk 1 2 3)
      (le_refl 0) Real.two_pi_pos⟩

/-- C7: moving forwards and then backwards for the same duration, with no
intervening turn, restores the camera position `(x, y, z)` exactly. -/
theorem move_forwards_backwards_roundtrip (c : Camera) (t : ℝ) (ht : 0 ≤ t) :
    ((c.move t "forwards").move t "backwards").x = c.x ∧
    ((c.move t "forwards").move t "backwards").y = c.y ∧
    ((c.move t "forwards").move t "backwards").z = c.z := by
  have hfb : ("forwards" = "backwards") = False := eq_false (by decide)
  have hbb : ("backwards" = "backwards") = True := eq_true rfl
  refine ⟨?_, ?_, rfl⟩ <;>
  · simp only [Camera.move, hfb, hbb, ite_true, ite_false]
    ring

/-- Witness for C7: a concrete camera pose moved for one second each way. -/
theorem move_forwards_backwards_roundtrip_witness :
    (0:ℝ) ≤ 1 ∧
      ((((Camera.mk 1 2 3 0).move 1 "forwards").move 1 "backwards").x = (Camera.mk 1 2 3 0).x ∧
        (((Camera.mk 1 2 3 0).move 1 "forwards").move 1 "backwards").y = (Camera.mk 1 2 3 0).y ∧
        (((Camera.mk 1 2 3 0).move 1 "forwards").move 1 "backwards").z = (Camera.mk 1 2 3 0).z) :=
  ⟨zero_le_one, move_forwards_backwards_roundtrip (Camera.mk 1 2 3 0) 1 zero_le_one⟩

/-- C8: starting from a yaw in `[0, 2π)`, turning left and then right for
the same duration restores the original yaw exactly, the floored-modulo
normalization included. -/
theorem turn_left_right_roundtrip (c : Camera) (t : ℝ)
    (h0 : 0 ≤ c.yaw) (h1 : c.yaw < 2 * Real.pi) (ht : 0 ≤ t) :
    ((c.turn t "left").turn t "right").yaw = c.yaw := by
  have h2pi : 0 < 2 * Real.pi := Real.two_pi_pos
  have hlr : ("left" = "right") = False := eq_false (by decide)
  have hrr : ("right" = "right") = True := eq_true rfl
  simp only [Camera.turn, hlr, hrr, ite_true, ite_false]
  rw [mod_eq_sub_floor (c.yaw + t * Camera.angularSpeed) _ h2pi]
  have hrw : c.yaw + t * Camera.angularSpeed -
        2 * Real.pi * ⌊(c.yaw + t * Camera.angularSpeed) / (2 * Real.pi)⌋ +
        t * Camera.angularSpeed * (-1)
      = c.yaw - 2 * Real.pi * ⌊(c.yaw + t * Camera.angularSpeed) / (2 * Real.pi)⌋ := by
    ring
  rw [hrw, mod_sub_int_mul _ _ _ h2pi, mod_eq_self _ _ h2pi h0 h1]

/-- Witness for C8: the initial camera pose, turned left then right for one
second each. -/
theorem turn_left_right_roundtrip_witness :
    0 ≤ (Camera.mk 0 0 200 0).yaw ∧ (Camera.mk 0 0 200 0).yaw < 2 * Real.pi ∧
      (0:ℝ) ≤ 1 ∧
      (((Camera.mk 0 0 200 0).turn 1 "left").turn 1 "right").yaw = (Camera.mk 0 0 200 0).yaw :=
  ⟨le_refl 0, Real.two_pi_pos, zero_le_one,
    turn_left_right_roundtrip (Camera.mk 0 0 200 0) 1 (le_refl 0) Real.two_pi_pos zero_le_one⟩

/-- C2: with positive depth, the projection scales both lateral camera-space
coordinates by `focalLength / depth` and subtracts each scaled offset from
the fixed screen origin `(width / 2, height * 2 / 3)`: the screen x offset
is the negated scaled camera-space y, the screen y offset the negated
scaled camera-space z (upward offsets move up the screen, whose pixel
y axis points down). -/
theorem project_pos_depth_formula (c : Camera) (f w h : ℝ) (p : Point)
    (hx : 0 < (c.transform p).x) :
    Point.project c f w h p =
      some (Projection.mk
        (w / 2 - (c.transform p).y * (f / (c.transform p).x))
        (h * 2 / 3 - (c.transform p).z * (f / (c.transform p).x))) := by
  simp [Point.project, hx]

/-- Witness for C2: the camera at the world origin facing a point straight
ahead at depth 1000. -/
theorem project_pos_depth_formula_witness :
    0 < ((Camera.mk 0 0 0 0).transform (Point.mk 1000 0 0)).x ∧
      Point.project (Camera.mk 0 0 0 0) 400 800 600 (Point.mk 1000 0 0) =
        some (Projection.mk
          (800 / 2 -
            ((Camera.mk 0 0 0 0).transform (Point.mk 1000 0 0)).y *
              (400 / ((Camera.mk 0 0 0 0).transform (Point.mk 1000 0 0)).x))
          (600 * 2 / 3 -
            ((Camera.mk 0 0 0 0).transform (Point.mk 1000 0 0)).z *
              (400 / ((Camera.mk 0 0 0 0).transform (Point.mk 1000 0 0)).x))) := by
  have hx : 0 < ((Camera.mk 0 0 0 0).transform (Point.mk 1000 0 0)).x := by
    norm_num [Camera.transform]
  exact ⟨hx, project_pos_depth_formula (Camera.mk 0 0 0 0) 400 800 600 (Point.mk 1000 0 0) hx⟩

/-- C3: for an edge whose two endpoints are present, a segment is drawn if
and only if both endpoints produced a projection (so an edge with one
behind-camera endpoint is never drawn), and the result is never an error:
skipping is silent. -/
theorem edge_draw_iff_both_projected (c : Camera) (f w h : ℝ) (pf pt : Point) :
    ((∃ s, Edge.draw c f w h (Edge.mk (some pf) (some pt)) = Except.ok (some s)) ↔
      ((Point.project c f w h pf).isSome ∧ (Point.project c f w h pt).isSome)) ∧
    (∃ r, Edge.draw c f w h (Edge.mk (some pf) (some pt)) = Except.ok r) := by
  rcases hf : Point.project c f w h pf with _ | a
  · exact ⟨by simp [Edge.draw, hf], ⟨none, by simp [Edge.draw, hf]⟩⟩
  · rcases ht : Point.project c f w h pt with _ | b
    · exact ⟨by simp [Edge.draw, hf, ht], ⟨none, by simp [Edge.draw, hf, ht]⟩⟩
    · exact ⟨by simp [Edge.draw, hf, ht], ⟨some (a, b), by simp [Edge.draw, hf, ht]⟩⟩

/-- C6 counterexample: constructing a `Shape` whose single edge entry
references vertex index 5 when only vertex 0 exists does not fail at
construction: the constructor completes and yields an edge whose second
endpoint is absent (`undefined` in JavaScript). -/
theorem shape_malformed_constructs :
    (Shape.make [(100, 0, 0)] [(0, [5])]).edges =
      [Edge.mk (some (Point.mk 100 0 0)) none] := by
  rfl

/-- C6 amended: the malformed edge reference is deferred to drawing time,
where it fails loudly: each edge of the malformed shape, drawn from a
camera for which the present endpoint projects, raises an error
(JavaScript's `TypeError` on reading `projection` of `undefined`) rather
than being skipped. -/
theorem shape_malformed_fails_at_draw :
    ((Shape.make [(100, 0, 0)] [(0, [5])]).edges.map
        (Edge.draw (Camera.mk 0 0 0 0) 400 800 600)) =
      [Except.error ()] := by
  have hvs : (Shape.make [(100, 0, 0)] [(0, [5])]).edges =
      [Edge.mk (some (Point.mk 100 0 0)) none] := rfl
  rw [hvs, List.map_cons, List.map_nil]
  have hx : 0 < ((Camera.mk 0 0 0 0).transform (Point.mk 100 0 0)).x := by
    norm_num [Camera.transform]
  simp [Edge.draw, Point.project, hx]

end Warsector
